import Mathlib

/-!
Shallow embedding of the i2pdf pixel-transformation pipeline (src/main.rs).

Samples (`u8` / `u16` in the source) are modelled as `ℕ`, with the sample
range `R` (255 for 8-bit, 65535 for 16-bit) passed explicitly where the
source obtains it from `S::max_value()`; the "all samples lie in the native
range" type invariant of `u8`/`u16` buffers becomes the explicit predicate
`DynamicImage.wellFormed`.

The blend arithmetic is performed on `f32` in the source.  It is embedded in
exact rational arithmetic (`ℚ`): every `f32` factor is a rational number, and
for the concrete inputs evaluated below (dyadic factors, samples below 2^24)
the `f32` computation is exact, so the embedding agrees with the source
bit-for-bit there.  The narrowing `num_traits::NumCast::from::<f32>` used by
`mul_alpha` truncates its argument toward zero and fails (`None`, hence an
`unwrap` panic) when the truncation falls outside `[0, R]`; `castToSample`
embeds exactly that.  Panics (`unwrap`, `unimplemented!`) are embedded as
`Except.error`.
-/

/-- One pixel of a single-channel luminance image (`image::Luma<S>`); the
sample is a `ℕ` standing for the unsigned machine integer. -/
structure Luma where
  y : ℕ
deriving DecidableEq

/-- One pixel of a luminance + alpha image (`image::LumaA<S>`). -/
structure LumaA where
  y : ℕ
  a : ℕ
deriving DecidableEq

/-- One pixel of a three-channel RGB image (`image::Rgb<S>`). -/
structure Rgb where
  r : ℕ
  g : ℕ
  b : ℕ
deriving DecidableEq

/-- One pixel of a four-channel RGBA image (`image::Rgba<S>`). -/
structure Rgba where
  r : ℕ
  g : ℕ
  b : ℕ
  a : ℕ
deriving DecidableEq

/-- `image::ImageBuffer`: a width x height grid of pixels, stored row-major. -/
structure ImageBuffer (P : Type) where
  width : ℕ
  height : ℕ
  data : List P
deriving DecidableEq

/-- Pixel-wise map over a buffer, preserving dimensions (the shape of the
`for y { for x { put_pixel } }` loops used by the source). -/
def ImageBuffer.map {P Q : Type} (f : P → Q) (img : ImageBuffer P) : ImageBuffer Q :=
  { width := img.width, height := img.height, data := img.data.map f }

/-- `image::DynamicImage` restricted to the pixel layouts of the `image`
crate used by the program; `mul_alpha_to_image` supports only `imageLuma8`,
`imageRgb8` and `imageRgb16` and panics on every other constructor. -/
inductive DynamicImage where
  | imageLuma8 (buffer : ImageBuffer Luma)
  | imageLumaA8 (buffer : ImageBuffer LumaA)
  | imageRgb8 (buffer : ImageBuffer Rgb)
  | imageRgba8 (buffer : ImageBuffer Rgba)
  | imageLuma16 (buffer : ImageBuffer Luma)
  | imageLumaA16 (buffer : ImageBuffer LumaA)
  | imageRgb16 (buffer : ImageBuffer Rgb)
  | imageRgba16 (buffer : ImageBuffer Rgba)
deriving DecidableEq

/-- Width in pixels of a dynamic image. -/
def DynamicImage.width : DynamicImage → ℕ
  | .imageLuma8 b => b.width
  | .imageLumaA8 b => b.width
  | .imageRgb8 b => b.width
  | .imageRgba8 b => b.width
  | .imageLuma16 b => b.width
  | .imageLumaA16 b => b.width
  | .imageRgb16 b => b.width
  | .imageRgba16 b => b.width

/-- Height in pixels of a dynamic image. -/
def DynamicImage.height : DynamicImage → ℕ
  | .imageLuma8 b => b.height
  | .imageLumaA8 b => b.height
  | .imageRgb8 b => b.height
  | .imageRgba8 b => b.height
  | .imageLuma16 b => b.height
  | .imageLumaA16 b => b.height
  | .imageRgb16 b => b.height
  | .imageRgba16 b => b.height

/-- Number of channels (samples per pixel) of a dynamic image's layout. -/
def DynamicImage.channelCount : DynamicImage → ℕ
  | .imageLuma8 _ => 1
  | .imageLumaA8 _ => 2
  | .imageRgb8 _ => 3
  | .imageRgba8 _ => 4
  | .imageLuma16 _ => 1
  | .imageLumaA16 _ => 2
  | .imageRgb16 _ => 3
  | .imageRgba16 _ => 4

/-- Sample bit range of a dynamic image's layout: 255 for 8-bit sample
variants, 65535 for 16-bit sample variants (`S::max_value()`). -/
def DynamicImage.sampleRange : DynamicImage → ℕ
  | .imageLuma8 _ => 255
  | .imageLumaA8 _ => 255
  | .imageRgb8 _ => 255
  | .imageRgba8 _ => 255
  | .imageLuma16 _ => 65535
  | .imageLumaA16 _ => 65535
  | .imageRgb16 _ => 65535
  | .imageRgba16 _ => 65535

/-- Index identifying the variant (channel count and sample width) of a
dynamic image, used to state that compositing preserves the variant. -/
def DynamicImage.variantIndex : DynamicImage → ℕ
  | .imageLuma8 _ => 0
  | .imageLumaA8 _ => 1
  | .imageRgb8 _ => 2
  | .imageRgba8 _ => 3
  | .imageLuma16 _ => 4
  | .imageLumaA16 _ => 5
  | .imageRgb16 _ => 6
  | .imageRgba16 _ => 7

/-- The three pixel layouts handled by `mul_alpha_to_image`; every other
layout falls into the `unimplemented!` arm. -/
def DynamicImage.supported : DynamicImage → Bool
  | .imageLuma8 _ => true
  | .imageRgb8 _ => true
  | .imageRgb16 _ => true
  | _ => false

/-- Every sample of the image lies in the native range of its sample type
(the `u8` / `u16` type invariant of the source buffers). -/
def DynamicImage.wellFormed : DynamicImage → Prop
  | .imageLuma8 b => ∀ px ∈ b.data, px.y ≤ 255
  | .imageLumaA8 b => ∀ px ∈ b.data, px.y ≤ 255 ∧ px.a ≤ 255
  | .imageRgb8 b => ∀ px ∈ b.data, px.r ≤ 255 ∧ px.g ≤ 255 ∧ px.b ≤ 255
  | .imageRgba8 b => ∀ px ∈ b.data, px.r ≤ 255 ∧ px.g ≤ 255 ∧ px.b ≤ 255 ∧ px.a ≤ 255
  | .imageLuma16 b => ∀ px ∈ b.data, px.y ≤ 65535
  | .imageLumaA16 b => ∀ px ∈ b.data, px.y ≤ 65535 ∧ px.a ≤ 65535
  | .imageRgb16 b => ∀ px ∈ b.data, px.r ≤ 65535 ∧ px.g ≤ 65535 ∧ px.b ≤ 65535
  | .imageRgba16 b => ∀ px ∈ b.data, px.r ≤ 65535 ∧ px.g ≤ 65535 ∧ px.b ≤ 65535 ∧ px.a ≤ 65535

instance : (img : DynamicImage) → Decidable img.wellFormed
  | .imageLuma8 b => inferInstanceAs (Decidable (∀ px ∈ b.data, px.y ≤ 255))
  | .imageLumaA8 b => inferInstanceAs (Decidable (∀ px ∈ b.data, px.y ≤ 255 ∧ px.a ≤ 255))
  | .imageRgb8 b =>
    inferInstanceAs (Decidable (∀ px ∈ b.data, px.r ≤ 255 ∧ px.g ≤ 255 ∧ px.b ≤ 255))
  | .imageRgba8 b =>
    inferInstanceAs
      (Decidable (∀ px ∈ b.data, px.r ≤ 255 ∧ px.g ≤ 255 ∧ px.b ≤ 255 ∧ px.a ≤ 255))
  | .imageLuma16 b => inferInstanceAs (Decidable (∀ px ∈ b.data, px.y ≤ 65535))
  | .imageLumaA16 b => inferInstanceAs (Decidable (∀ px ∈ b.data, px.y ≤ 65535 ∧ px.a ≤ 65535))
  | .imageRgb16 b =>
    inferInstanceAs (Decidable (∀ px ∈ b.data, px.r ≤ 65535 ∧ px.g ≤ 65535 ∧ px.b ≤ 65535))
  | .imageRgba16 b =>
    inferInstanceAs
      (Decidable (∀ px ∈ b.data, px.r ≤ 65535 ∧ px.g ≤ 65535 ∧ px.b ≤ 65535 ∧ px.a ≤ 65535))

/-- Truncation of a rational toward zero: the value a float-to-integer `as`
cast (and `num_traits` float conversion) computes before its range check. -/
def truncQ (x : ℚ) : ℤ :=
  if 0 ≤ x then ⌊x⌋ else ⌈x⌉

/-- `num_traits::NumCast::from::<f32>` narrowing to an unsigned sample type
with maximum `R`: truncate toward zero, succeed iff the result fits in
`[0, R]`.  The `.unwrap()` in the source turns `none` into a panic, embedded
as `Except.error`. -/
def castToSample (R : ℕ) (x : ℚ) : Except String ℕ :=
  if 0 ≤ truncQ x ∧ truncQ x ≤ (R : ℤ) then .ok (truncQ x).toNat
  else .error "NumCast::from returned None"

/-- The exact value of `bgrnd + fgrnd` in the sample closure of `mul_alpha`:
`bgrnd = (1.0 - alpha) * max_pixel` and `fgrnd = alpha * p`.  This drops the
three intermediate f32 roundings of the source (`1.0 - alpha`, the two
products and the sum are each rounded to f32 there), so a statement that
quantifies over all rational factors can differ from the f32 program at
rounding-sensitive factor pairs; theorems below therefore either use factors
at which the f32 computation is exact, or restrict the factor to the grid
`alpha_percent / 100` that `process_image` can actually pass, where the
properties proved here also hold of the f32 arithmetic for non-maximal
samples. -/
def blendQ (R : ℕ) (alpha : ℚ) (p : ℕ) : ℚ :=
  (1 - alpha) * (R : ℚ) + alpha * (p : ℚ)

/-- The per-sample closure shared by both `mul_alpha` impls (`Luma` and
`Rgb`): compute `bgrnd + fgrnd`, then narrow back to the sample type. -/
def mulAlphaSample (R : ℕ) (alpha : ℚ) (p : ℕ) : Except String ℕ :=
  castToSample R (blendQ R alpha p)

/-- `impl MulAlpha for Luma<S>`: `map_with_alpha` applies the sample closure
to the single luminance channel; `Luma` has no alpha channel, so the
`|_| S::max_value()` closure is never invoked. -/
def Luma.mul_alpha (R : ℕ) (alpha : ℚ) (px : Luma) : Except String Luma := do
  let y ← mulAlphaSample R alpha px.y
  pure ⟨y⟩

/-- `impl MulAlpha for Rgb<S>`: `map_with_alpha` applies the sample closure
to each of the three color channels; `Rgb` has no alpha channel, so the
`|_| S::max_value()` closure is never invoked. -/
def Rgb.mul_alpha (R : ℕ) (alpha : ℚ) (px : Rgb) : Except String Rgb := do
  let r ← mulAlphaSample R alpha px.r
  let g ← mulAlphaSample R alpha px.g
  let b ← mulAlphaSample R alpha px.b
  pure ⟨r, g, b⟩

/-- Sequential fail-fast map: the first panic aborts the whole loop, as in
the source's nested `for` loops over `get_pixel`/`put_pixel`. -/
def mapExcept {P Q : Type} (f : P → Except String Q) : List P → Except String (List Q)
  | [] => .ok []
  | px :: rest => do
    let q ← f px
    let qs ← mapExcept f rest
    pure (q :: qs)

/-- `MulAlpha::mul_alpha_buffer`: allocate a buffer of the same dimensions
and fill every position with `mul_alpha` of the corresponding input pixel. -/
def mul_alpha_buffer {P : Type} (f : P → Except String P) (img : ImageBuffer P) :
    Except String (ImageBuffer P) := do
  let data ← mapExcept f img.data
  pure { width := img.width, height := img.height, data := data }

/-- `mul_alpha_to_image`: dispatch on the dynamic image's variant, blending
`Luma8` and `Rgb8` buffers with sample range 255 and `Rgb16` buffers with
sample range 65535; every other variant hits `unimplemented!`. -/
def mul_alpha_to_image (img : DynamicImage) (alpha : ℚ) : Except String DynamicImage :=
  match img with
  | .imageLuma8 buffer => do
    let out ← mul_alpha_buffer (Luma.mul_alpha 255 alpha) buffer
    pure (.imageLuma8 out)
  | .imageRgb8 buffer => do
    let out ← mul_alpha_buffer (Rgb.mul_alpha 255 alpha) buffer
    pure (.imageRgb8 out)
  | .imageRgb16 buffer => do
    let out ← mul_alpha_buffer (Rgb.mul_alpha 65535 alpha) buffer
    pure (.imageRgb16 out)
  | _ => .error "add_alpha_to_image"

/-- Modelled from the spec: the luminance weighting used by the image
library's grayscale reduction, a standard perceptual weighting of the three
color channels of the 8-bit RGBA view of a pixel (the exact formula is the
collaborator's; the spec requires only that it be deterministic and
dimension-preserving).  Weights sum to 10000, so the result never exceeds
the largest input channel value. -/
def rgb_to_luma (r g b : ℕ) : ℕ :=
  (2126 * r + 7152 * g + 722 * b) / 10000

/-- Modelled from the spec: narrowing a 16-bit sample to the 8-bit channel
of the library's RGBA view, scaling 65535 down to 255. -/
def narrow16 (v : ℕ) : ℕ :=
  v / 257

/-- Modelled from the spec: `image::imageops::grayscale` applied to a
`DynamicImage`, which views every pixel through the library's 8-bit RGBA
pixel access (narrowing 16-bit samples to 8 bits) and reduces it to a
single luminance sample; dimension-preserving and total over all layouts. -/
def grayscale (img : DynamicImage) : ImageBuffer Luma :=
  match img with
  | .imageLuma8 b => b.map fun px => ⟨rgb_to_luma px.y px.y px.y⟩
  | .imageLumaA8 b => b.map fun px => ⟨rgb_to_luma px.y px.y px.y⟩
  | .imageRgb8 b => b.map fun px => ⟨rgb_to_luma px.r px.g px.b⟩
  | .imageRgba8 b => b.map fun px => ⟨rgb_to_luma px.r px.g px.b⟩
  | .imageLuma16 b => b.map fun px => ⟨rgb_to_luma (narrow16 px.y) (narrow16 px.y) (narrow16 px.y)⟩
  | .imageLumaA16 b => b.map fun px => ⟨rgb_to_luma (narrow16 px.y) (narrow16 px.y) (narrow16 px.y)⟩
  | .imageRgb16 b => b.map fun px => ⟨rgb_to_luma (narrow16 px.r) (narrow16 px.g) (narrow16 px.b)⟩
  | .imageRgba16 b => b.map fun px => ⟨rgb_to_luma (narrow16 px.r) (narrow16 px.g) (narrow16 px.b)⟩

/-- The command-line arguments relevant to `process_image` (`files` is used
only by `main`); `alpha` is a `u8` percentage defaulting to 100. -/
structure Args where
  files : List String
  to_gray : Bool
  alpha : ℕ

/-- `process_image`: optionally grayscale (wrapping the result back into a
`Luma8` dynamic image), then, when `alpha < 100`, composite with factor
`alpha / 100`. -/
def process_image (args : Args) (img : DynamicImage) : Except String DynamicImage :=
  let output := if args.to_gray then DynamicImage.imageLuma8 (grayscale img) else img
  if args.alpha < 100 then
    mul_alpha_to_image output ((args.alpha : ℚ) / 100)
  else
    .ok output

/-! ### Helper lemmas about the numeric core -/

theorem truncQ_of_nonneg {x : ℚ} (h : 0 ≤ x) : truncQ x = ⌊x⌋ := by
  simp [truncQ, h]

theorem truncQ_natCast (n : ℕ) : truncQ (n : ℚ) = n := by
  rw [truncQ_of_nonneg (by positivity)]
  exact Int.floor_natCast n

theorem truncQ_nonneg {x : ℚ} (h : 0 ≤ x) : 0 ≤ truncQ x := by
  rw [truncQ_of_nonneg h]
  exact Int.floor_nonneg.mpr h

theorem truncQ_le_natCast {x : ℚ} {R : ℕ} (h0 : 0 ≤ x) (h : x ≤ (R : ℚ)) :
    truncQ x ≤ (R : ℤ) := by
  rw [truncQ_of_nonneg h0]
  calc ⌊x⌋ ≤ ⌊(R : ℚ)⌋ := Int.floor_le_floor h
    _ = (R : ℤ) := Int.floor_natCast R

theorem truncQ_mono {x y : ℚ} (h0 : 0 ≤ x) (hxy : x ≤ y) : truncQ x ≤ truncQ y := by
  rw [truncQ_of_nonneg h0, truncQ_of_nonneg (le_trans h0 hxy)]
  exact Int.floor_le_floor hxy

theorem castToSample_ok {R : ℕ} {x : ℚ} (h0 : 0 ≤ x) (h1 : x ≤ (R : ℚ)) :
    castToSample R x = .ok (truncQ x).toNat ∧ (truncQ x).toNat ≤ R := by
  have hl := truncQ_nonneg h0
  have hu := truncQ_le_natCast h0 h1
  refine ⟨?_, ?_⟩
  · simp [castToSample, hl, hu]
  · exact Int.toNat_le.mpr hu

theorem blendQ_nonneg {R : ℕ} {alpha : ℚ} {p : ℕ} (h0 : 0 ≤ alpha) (h1 : alpha ≤ 1) :
    0 ≤ blendQ R alpha p := by
  have hR : (0 : ℚ) ≤ (R : ℚ) := Nat.cast_nonneg R
  have hp : (0 : ℚ) ≤ (p : ℚ) := Nat.cast_nonneg p
  have := mul_nonneg (by linarith : (0 : ℚ) ≤ 1 - alpha) hR
  have := mul_nonneg h0 hp
  unfold blendQ
  linarith

theorem blendQ_le {R : ℕ} {alpha : ℚ} {p : ℕ} (h0 : 0 ≤ alpha) (_h1 : alpha ≤ 1)
    (hp : p ≤ R) : blendQ R alpha p ≤ (R : ℚ) := by
  have hpR : (p : ℚ) ≤ (R : ℚ) := Nat.cast_le.mpr hp
  have := mul_le_mul_of_nonneg_left hpR h0
  unfold blendQ
  nlinarith

theorem mulAlphaSample_ok {R : ℕ} {alpha : ℚ} {p : ℕ} (h0 : 0 ≤ alpha)
    (h1 : alpha ≤ 1) (hp : p ≤ R) :
    mulAlphaSample R alpha p = .ok (truncQ (blendQ R alpha p)).toNat ∧
      (truncQ (blendQ R alpha p)).toNat ≤ R := by
  exact castToSample_ok (blendQ_nonneg h0 h1) (blendQ_le h0 h1 hp)

theorem blendQ_one {R : ℕ} {p : ℕ} : blendQ R 1 p = (p : ℚ) := by
  unfold blendQ
  ring

theorem mulAlphaSample_one {R : ℕ} {p : ℕ} (hp : p ≤ R) :
    mulAlphaSample R 1 p = .ok p := by
  have h := (@mulAlphaSample_ok R 1 p (by norm_num) (by norm_num) hp).1
  rwa [blendQ_one, truncQ_natCast, Int.toNat_natCast] at h

theorem blendQ_anti {R : ℕ} {p : ℕ} {f1 f2 : ℚ} (hp : p ≤ R) (hf : f2 ≤ f1) :
    blendQ R f1 p ≤ blendQ R f2 p := by
  have hpR : (p : ℚ) ≤ (R : ℚ) := Nat.cast_le.mpr hp
  have := mul_nonneg (sub_nonneg.mpr hf) (sub_nonneg.mpr hpR)
  unfold blendQ
  nlinarith

theorem mulAlphaSample_anti {R : ℕ} {p : ℕ} {f1 f2 : ℚ} (hp : p ≤ R)
    (h0 : 0 ≤ f2) (hf : f2 ≤ f1) (h1 : f1 ≤ 1) :
    (truncQ (blendQ R f1 p)).toNat ≤ (truncQ (blendQ R f2 p)).toNat := by
  have hb0 : 0 ≤ blendQ R f1 p := blendQ_nonneg (le_trans h0 hf) h1
  exact Int.toNat_le_toNat (truncQ_mono hb0 (blendQ_anti hp hf))

/-! ### Helper lemmas lifting the sample arithmetic to pixels and buffers -/

theorem except_bind_ok {A B : Type} (a : A) (f : A → Except String B) :
    (Except.ok a >>= f) = f a := rfl

theorem except_pure_eq_ok {A : Type} (a : A) : (pure a : Except String A) = .ok a := rfl

theorem luma_mul_alpha_ok {R : ℕ} {alpha : ℚ} (px : Luma) (h0 : 0 ≤ alpha)
    (h1 : alpha ≤ 1) (hpx : px.y ≤ R) :
    ∃ q, Luma.mul_alpha R alpha px = .ok q ∧ q.y ≤ R := by
  obtain ⟨hy, hyle⟩ := mulAlphaSample_ok h0 h1 hpx
  refine ⟨⟨(truncQ (blendQ R alpha px.y)).toNat⟩, ?_, hyle⟩
  rw [Luma.mul_alpha, hy, except_bind_ok, except_pure_eq_ok]

theorem rgb_mul_alpha_ok {R : ℕ} {alpha : ℚ} (px : Rgb) (h0 : 0 ≤ alpha)
    (h1 : alpha ≤ 1) (hpx : px.r ≤ R ∧ px.g ≤ R ∧ px.b ≤ R) :
    ∃ q, Rgb.mul_alpha R alpha px = .ok q ∧ q.r ≤ R ∧ q.g ≤ R ∧ q.b ≤ R := by
  obtain ⟨hr, hg, hb⟩ := hpx
  obtain ⟨hr1, hr2⟩ := mulAlphaSample_ok h0 h1 hr
  obtain ⟨hg1, hg2⟩ := mulAlphaSample_ok h0 h1 hg
  obtain ⟨hb1, hb2⟩ := mulAlphaSample_ok h0 h1 hb
  refine ⟨⟨(truncQ (blendQ R alpha px.r)).toNat, (truncQ (blendQ R alpha px.g)).toNat,
    (truncQ (blendQ R alpha px.b)).toNat⟩, ?_, hr2, hg2, hb2⟩
  rw [Rgb.mul_alpha, hr1, except_bind_ok, hg1, except_bind_ok, hb1, except_bind_ok,
    except_pure_eq_ok]

theorem luma_mul_alpha_one {R : ℕ} (px : Luma) (hpx : px.y ≤ R) :
    Luma.mul_alpha R 1 px = .ok px := by
  rw [Luma.mul_alpha, mulAlphaSample_one hpx, except_bind_ok, except_pure_eq_ok]

theorem rgb_mul_alpha_one {R : ℕ} (px : Rgb) (hpx : px.r ≤ R ∧ px.g ≤ R ∧ px.b ≤ R) :
    Rgb.mul_alpha R 1 px = .ok px := by
  rw [Rgb.mul_alpha, mulAlphaSample_one hpx.1, except_bind_ok,
    mulAlphaSample_one hpx.2.1, except_bind_ok, mulAlphaSample_one hpx.2.2,
    except_bind_ok, except_pure_eq_ok]

theorem mapExcept_ok {P : Type} {f : P → Except String P} {Pr : P → Prop}
    (l : List P) (h : ∀ a ∈ l, ∃ b, f a = .ok b ∧ Pr b) :
    ∃ l2, mapExcept f l = .ok l2 ∧ ∀ b ∈ l2, Pr b := by
  induction l with
  | nil => exact ⟨[], rfl, by simp⟩
  | cons a l ih =>
    obtain ⟨b, hb, hPb⟩ := h a (List.mem_cons_self a l)
    obtain ⟨l2, hl2, hPl2⟩ := ih fun x hx => h x (List.mem_cons_of_mem a hx)
    refine ⟨b :: l2, ?_, ?_⟩
    · rw [mapExcept, hb, except_bind_ok, hl2, except_bind_ok, except_pure_eq_ok]
    · intro c hc
      rcases List.mem_cons.mp hc with hceq | hcmem
      · exact hceq ▸ hPb
      · exact hPl2 c hcmem

theorem mapExcept_id {P : Type} {f : P → Except String P} (l : List P)
    (h : ∀ a ∈ l, f a = .ok a) : mapExcept f l = .ok l := by
  induction l with
  | nil => rfl
  | cons a l ih =>
    rw [mapExcept, h a (List.mem_cons_self a l), except_bind_ok,
      ih fun x hx => h x (List.mem_cons_of_mem a hx), except_bind_ok, except_pure_eq_ok]

theorem mul_alpha_buffer_ok {P : Type} {f : P → Except String P} {Pr : P → Prop}
    (img : ImageBuffer P) (h : ∀ a ∈ img.data, ∃ b, f a = .ok b ∧ Pr b) :
    ∃ out, mul_alpha_buffer f img = .ok out ∧ out.width = img.width ∧
      out.height = img.height ∧ ∀ b ∈ out.data, Pr b := by
  obtain ⟨l2, hl2, hPl2⟩ := mapExcept_ok img.data h
  refine ⟨⟨img.width, img.height, l2⟩, ?_, rfl, rfl, hPl2⟩
  rw [mul_alpha_buffer, hl2, except_bind_ok, except_pure_eq_ok]

theorem mul_alpha_buffer_id {P : Type} {f : P → Except String P}
    (img : ImageBuffer P) (h : ∀ a ∈ img.data, f a = .ok a) :
    mul_alpha_buffer f img = .ok img := by
  rw [mul_alpha_buffer, mapExcept_id img.data h, except_bind_ok, except_pure_eq_ok]

/-- Master lemma for the dispatch: on a supported, well-formed image and a
factor in `[0, 1]`, compositing succeeds and yields a well-formed image of
the same dimensions and variant. -/
theorem mul_alpha_to_image_ok {alpha : ℚ} (img : DynamicImage)
    (hs : img.supported = true) (hwf : img.wellFormed) (h0 : 0 ≤ alpha)
    (h1 : alpha ≤ 1) :
    ∃ out, mul_alpha_to_image img alpha = .ok out ∧ out.wellFormed ∧
      out.width = img.width ∧ out.height = img.height ∧
      out.variantIndex = img.variantIndex ∧
      out.channelCount = img.channelCount ∧ out.sampleRange = img.sampleRange := by
  cases img with
  | imageLuma8 b =>
    obtain ⟨out, hout, hw, hh, hP⟩ := mul_alpha_buffer_ok b
      fun px hpx => luma_mul_alpha_ok px h0 h1 (hwf px hpx)
    exact ⟨.imageLuma8 out,
      by rw [mul_alpha_to_image, hout, except_bind_ok, except_pure_eq_ok],
      hP, hw, hh, rfl, rfl, rfl⟩
  | imageRgb8 b =>
    obtain ⟨out, hout, hw, hh, hP⟩ := mul_alpha_buffer_ok b
      fun px hpx => rgb_mul_alpha_ok px h0 h1 (hwf px hpx)
    exact ⟨.imageRgb8 out,
      by rw [mul_alpha_to_image, hout, except_bind_ok, except_pure_eq_ok],
      hP, hw, hh, rfl, rfl, rfl⟩
  | imageRgb16 b =>
    obtain ⟨out, hout, hw, hh, hP⟩ := mul_alpha_buffer_ok b
      fun px hpx => rgb_mul_alpha_ok px h0 h1 (hwf px hpx)
    exact ⟨.imageRgb16 out,
      by rw [mul_alpha_to_image, hout, except_bind_ok, except_pure_eq_ok],
      hP, hw, hh, rfl, rfl, rfl⟩
  | imageLumaA8 b => simp [DynamicImage.supported] at hs
  | imageRgba8 b => simp [DynamicImage.supported] at hs
  | imageLuma16 b => simp [DynamicImage.supported] at hs
  | imageLumaA16 b => simp [DynamicImage.supported] at hs
  | imageRgba16 b => simp [DynamicImage.supported] at hs

/-- Master lemma for full opacity: the dispatch at factor 1 returns the
input image unchanged on every supported, well-formed image. -/
theorem mul_alpha_to_image_one (img : DynamicImage) (hs : img.supported = true)
    (hwf : img.wellFormed) : mul_alpha_to_image img 1 = .ok img := by
  cases img with
  | imageLuma8 b =>
    rw [mul_alpha_to_image,
      mul_alpha_buffer_id b fun px hpx => luma_mul_alpha_one px (hwf px hpx),
      except_bind_ok, except_pure_eq_ok]
  | imageRgb8 b =>
    rw [mul_alpha_to_image,
      mul_alpha_buffer_id b fun px hpx => rgb_mul_alpha_one px (hwf px hpx),
      except_bind_ok, except_pure_eq_ok]
  | imageRgb16 b =>
    rw [mul_alpha_to_image,
      mul_alpha_buffer_id b fun px hpx => rgb_mul_alpha_one px (hwf px hpx),
      except_bind_ok, except_pure_eq_ok]
  | imageLumaA8 b => simp [DynamicImage.supported] at hs
  | imageRgba8 b => simp [DynamicImage.supported] at hs
  | imageLuma16 b => simp [DynamicImage.supported] at hs
  | imageLumaA16 b => simp [DynamicImage.supported] at hs
  | imageRgba16 b => simp [DynamicImage.supported] at hs

/-! ### Helper lemmas about the grayscale reduction -/

theorem rgb_to_luma_le {r g b : ℕ} (hr : r ≤ 255) (hg : g ≤ 255) (hb : b ≤ 255) :
    rgb_to_luma r g b ≤ 255 := by
  unfold rgb_to_luma
  omega

theorem narrow16_le {v : ℕ} (hv : v ≤ 65535) : narrow16 v ≤ 255 := by
  unfold narrow16
  omega

theorem grayscale_width (img : DynamicImage) : (grayscale img).width = img.width := by
  cases img <;> rfl

theorem grayscale_height (img : DynamicImage) : (grayscale img).height = img.height := by
  cases img <;> rfl

theorem grayscale_le (img : DynamicImage) (hwf : img.wellFormed) :
    ∀ px ∈ (grayscale img).data, px.y ≤ 255 := by
  cases img with
  | imageLuma8 b =>
    intro px hpx
    simp only [grayscale, ImageBuffer.map, List.mem_map] at hpx
    obtain ⟨a, ha, rfl⟩ := hpx
    exact rgb_to_luma_le (hwf a ha) (hwf a ha) (hwf a ha)
  | imageLumaA8 b =>
    intro px hpx
    simp only [grayscale, ImageBuffer.map, List.mem_map] at hpx
    obtain ⟨a, ha, rfl⟩ := hpx
    exact rgb_to_luma_le (hwf a ha).1 (hwf a ha).1 (hwf a ha).1
  | imageRgb8 b =>
    intro px hpx
    simp only [grayscale, ImageBuffer.map, List.mem_map] at hpx
    obtain ⟨a, ha, rfl⟩ := hpx
    exact rgb_to_luma_le (hwf a ha).1 (hwf a ha).2.1 (hwf a ha).2.2
  | imageRgba8 b =>
    intro px hpx
    simp only [grayscale, ImageBuffer.map, List.mem_map] at hpx
    obtain ⟨a, ha, rfl⟩ := hpx
    exact rgb_to_luma_le (hwf a ha).1 (hwf a ha).2.1 (hwf a ha).2.2.1
  | imageLuma16 b =>
    intro px hpx
    simp only [grayscale, ImageBuffer.map, List.mem_map] at hpx
    obtain ⟨a, ha, rfl⟩ := hpx
    exact rgb_to_luma_le (narrow16_le (hwf a ha)) (narrow16_le (hwf a ha))
      (narrow16_le (hwf a ha))
  | imageLumaA16 b =>
    intro px hpx
    simp only [grayscale, ImageBuffer.map, List.mem_map] at hpx
    obtain ⟨a, ha, rfl⟩ := hpx
    exact rgb_to_luma_le (narrow16_le (hwf a ha).1) (narrow16_le (hwf a ha).1)
      (narrow16_le (hwf a ha).1)
  | imageRgb16 b =>
    intro px hpx
    simp only [grayscale, ImageBuffer.map, List.mem_map] at hpx
    obtain ⟨a, ha, rfl⟩ := hpx
    exact rgb_to_luma_le (narrow16_le (hwf a ha).1) (narrow16_le (hwf a ha).2.1)
      (narrow16_le (hwf a ha).2.2)
  | imageRgba16 b =>
    intro px hpx
    simp only [grayscale, ImageBuffer.map, List.mem_map] at hpx
    obtain ⟨a, ha, rfl⟩ := hpx
    exact rgb_to_luma_le (narrow16_le (hwf a ha).1) (narrow16_le (hwf a ha).2.1)
      (narrow16_le (hwf a ha).2.2.1)

/-! ### Concrete evaluation of the blend on the spec's example pixel -/

theorem mulAlphaSample_half_100 : mulAlphaSample 255 (1/2) 100 = .ok 177 := by
  norm_num [mulAlphaSample, castToSample, blendQ, truncQ]
  rfl

theorem mulAlphaSample_half_150 : mulAlphaSample 255 (1/2) 150 = .ok 202 := by
  norm_num [mulAlphaSample, castToSample, blendQ, truncQ]
  rfl

theorem mulAlphaSample_half_200 : mulAlphaSample 255 (1/2) 200 = .ok 227 := by
  norm_num [mulAlphaSample, castToSample, blendQ, truncQ]
  rfl

theorem mul_alpha_rgb_half :
    Rgb.mul_alpha 255 (1/2) ⟨100, 150, 200⟩ = .ok ⟨177, 202, 227⟩ := by
  simp only [Rgb.mul_alpha, mulAlphaSample_half_100, mulAlphaSample_half_150,
    mulAlphaSample_half_200, except_bind_ok, except_pure_eq_ok]

/-! ### Claims -/

/-- C1 (counterexample): on the 8-bit RGB pixel (100, 150, 200) with factor
1/2 the code does NOT produce (178, 203, 228): the narrowing cast truncates,
so 177.5, 202.5 and 227.5 narrow down to 177, 202 and 227, not up. -/
theorem C1_counterexample :
    Rgb.mul_alpha 255 (1/2) ⟨100, 150, 200⟩ ≠ .ok ⟨178, 203, 228⟩ := by
  rw [mul_alpha_rgb_half]
  simp

/-- C1 (amended): for an 8-bit RGB buffer pixel (100, 150, 200), composite
with factor 0.5 produces channel-wise outputs 177, 202 and 227, each computed
as trunc(0.5 x 255 + 0.5 x original) with the truncating cast applied
uniformly across all channels.  (All intermediate f32 values here are dyadic
rationals below 2^24, so the exact rational evaluation coincides with the
f32 evaluation of the source.) -/
theorem C1_theorem :
    Rgb.mul_alpha 255 (1/2) ⟨100, 150, 200⟩ = .ok ⟨177, 202, 227⟩ :=
  mul_alpha_rgb_half

/-- C2 (counterexample): strict monotonic whitening fails.  With original
sample 254 < 255 and factors 1/2 > 1/4 (the program's factors for
alpha_percent 50 and 25, at which the f32 computation is exact), both
factors produce output sample 254 (254.5 and 254.75 both truncate to 254),
so the output at the smaller factor is not strictly closer to 255. -/
theorem C2_counterexample :
    (1/4 : ℚ) < 1/2 ∧ 254 < 255 ∧
      mulAlphaSample 255 (1/2) 254 = .ok 254 ∧
      mulAlphaSample 255 (1/4) 254 = .ok 254 ∧
      ¬ (255 - 254 < 255 - 254 : Prop) := by
  refine ⟨by norm_num, by norm_num, ?_, ?_, by omega⟩
  · norm_num [mulAlphaSample, castToSample, blendQ, truncQ]
    rfl
  · norm_num [mulAlphaSample, castToSample, blendQ, truncQ]
    rfl

/-- C2 (amended): for every sample range, every original sample v < R and
every pair of alpha percentages a2 < a1 <= 100 -- the only factors the
program can hand to the compositor are alpha_percent / 100 with
alpha_percent < 100 -- the sample closure succeeds at both factors and the
output at the smaller factor a2/100 is weakly closer to R than the output
at a1/100 (never farther; equality is possible because the narrowing cast
truncates).  This covers all three supported variants and all sample
positions, since both `mul_alpha` impls apply `mulAlphaSample` to every
sample independently.  The restriction to the percentage grid matters: for
arbitrary adjacent f32 factors in [0, 1] the intermediate f32 roundings of
the source can invert even this weak ordering (e.g. at R = 255, v = 1 with
factors 6274943/2^24 < 49023/2^17 the f32 arithmetic yields 159 then 160),
while on the grid, for v < R, the f32 outputs satisfy it. -/
theorem C2_theorem (R v : ℕ) (hv : v < R) (a1 a2 : ℕ) (ha : a2 < a1)
    (ha1 : a1 ≤ 100) :
    ∃ n1 n2, mulAlphaSample R ((a1 : ℚ) / 100) v = .ok n1 ∧
      mulAlphaSample R ((a2 : ℚ) / 100) v = .ok n2 ∧
      n1 ≤ R ∧ n2 ≤ R ∧ R - n2 ≤ R - n1 ∧ n1 ≤ n2 := by
  have hvR : v ≤ R := le_of_lt hv
  have h20 : (0 : ℚ) ≤ (a2 : ℚ) / 100 := by positivity
  have h21 : (a2 : ℚ) / 100 ≤ (a1 : ℚ) / 100 := by
    have h : (a2 : ℚ) ≤ (a1 : ℚ) := by exact_mod_cast le_of_lt ha
    linarith
  have h11 : (a1 : ℚ) / 100 ≤ 1 := by
    rw [div_le_one (by norm_num : (0 : ℚ) < 100)]
    exact_mod_cast ha1
  obtain ⟨e1, le1⟩ := mulAlphaSample_ok (le_trans h20 h21) h11 hvR
  obtain ⟨e2, le2⟩ := mulAlphaSample_ok h20 (le_trans h21 h11) hvR
  have hanti := mulAlphaSample_anti hvR h20 h21 h11
  exact ⟨_, _, e1, e2, le1, le2, Nat.sub_le_sub_left hanti R, hanti⟩

/-- C2 witness: the amended monotonicity at R = 255, v = 100, with alpha
percentages 50 and 25 (factors 1/2 and 1/4). -/
theorem C2_witness :
    ∃ n1 n2, mulAlphaSample 255 (((50 : ℕ) : ℚ) / 100) 100 = .ok n1 ∧
      mulAlphaSample 255 (((25 : ℕ) : ℚ) / 100) 100 = .ok n2 ∧
      n1 ≤ 255 ∧ n2 ≤ 255 ∧ 255 - n2 ≤ 255 - n1 ∧ n1 ≤ n2 :=
  C2_theorem 255 100 (by norm_num) 50 25 (by norm_num) (by norm_num)

/-- C3: compositing with factor 1.0 is the identity on every supported,
well-formed buffer: `mul_alpha_to_image img 1 = .ok img`. -/
theorem C3_theorem (img : DynamicImage) (hs : img.supported = true)
    (hwf : img.wellFormed) : mul_alpha_to_image img 1 = .ok img :=
  mul_alpha_to_image_one img hs hwf

/-- C3 witness: identity at factor 1 on a concrete 1x1 8-bit RGB buffer. -/
theorem C3_witness :
    mul_alpha_to_image (.imageRgb8 ⟨1, 1, [⟨100, 150, 200⟩]⟩) 1 =
      .ok (.imageRgb8 ⟨1, 1, [⟨100, 150, 200⟩]⟩) :=
  C3_theorem (.imageRgb8 ⟨1, 1, [⟨100, 150, 200⟩]⟩) rfl (by decide)

/-- C4: for every supported, well-formed buffer and every factor in [0, 1],
compositing succeeds (no narrowing-cast failure, no panic) and every output
sample again lies in [0, R]. -/
theorem C4_theorem (img : DynamicImage) (hs : img.supported = true)
    (hwf : img.wellFormed) (alpha : ℚ) (h0 : 0 ≤ alpha) (h1 : alpha ≤ 1) :
    ∃ out, mul_alpha_to_image img alpha = .ok out ∧ out.wellFormed := by
  obtain ⟨out, hout, hwf2, _, _, _, _, _⟩ := mul_alpha_to_image_ok img hs hwf h0 h1
  exact ⟨out, hout, hwf2⟩

/-- C4 witness: range safety at factor 1/2 on a concrete 1x1 16-bit RGB
buffer containing a maximal sample. -/
theorem C4_witness :
    ∃ out, mul_alpha_to_image (.imageRgb16 ⟨1, 1, [⟨65535, 0, 30000⟩]⟩) (1/2) =
      .ok out ∧ out.wellFormed :=
  C4_theorem (.imageRgb16 ⟨1, 1, [⟨65535, 0, 30000⟩]⟩) rfl (by decide) (1/2)
    (by norm_num) (by norm_num)

/-- C5: invoking the compositing dispatch on any pixel layout outside the
three supported variants takes the `unimplemented!` arm (embedded as the
error value) and produces no output buffer, for every factor. -/
theorem C5_theorem (img : DynamicImage) (hs : img.supported = false)
    (alpha : ℚ) : mul_alpha_to_image img alpha = .error "add_alpha_to_image" := by
  cases img with
  | imageLuma8 b => simp [DynamicImage.supported] at hs
  | imageRgb8 b => simp [DynamicImage.supported] at hs
  | imageRgb16 b => simp [DynamicImage.supported] at hs
  | imageLumaA8 b => rfl
  | imageRgba8 b => rfl
  | imageLuma16 b => rfl
  | imageLumaA16 b => rfl
  | imageRgba16 b => rfl

/-- C5 witness: the dispatch rejects a concrete 8-bit RGBA buffer. -/
theorem C5_witness :
    mul_alpha_to_image (.imageRgba8 ⟨1, 1, [⟨1, 2, 3, 4⟩]⟩) (1/2) =
      .error "add_alpha_to_image" :=
  C5_theorem (.imageRgba8 ⟨1, 1, [⟨1, 2, 3, 4⟩]⟩) rfl (1/2)

/-- C6: for every supported, well-formed buffer and factor in [0, 1],
compositing returns a buffer with exactly the same width, height and
variant (same channel count and sample width) as the input. -/
theorem C6_theorem (img : DynamicImage) (hs : img.supported = true)
    (hwf : img.wellFormed) (alpha : ℚ) (h0 : 0 ≤ alpha) (h1 : alpha ≤ 1) :
    ∃ out, mul_alpha_to_image img alpha = .ok out ∧ out.width = img.width ∧
      out.height = img.height ∧ out.variantIndex = img.variantIndex ∧
      out.channelCount = img.channelCount ∧ out.sampleRange = img.sampleRange := by
  obtain ⟨out, hout, _, hw, hh, hv, hc, hr⟩ := mul_alpha_to_image_ok img hs hwf h0 h1
  exact ⟨out, hout, hw, hh, hv, hc, hr⟩

/-- C6 witness: dimension and variant preservation at factor 1/2 on a
concrete 2x1 8-bit luminance buffer. -/
theorem C6_witness :
    ∃ out, mul_alpha_to_image (.imageLuma8 ⟨2, 1, [⟨0⟩, ⟨255⟩]⟩) (1/2) = .ok out ∧
      out.width = (DynamicImage.imageLuma8 ⟨2, 1, [⟨0⟩, ⟨255⟩]⟩).width ∧
      out.height = (DynamicImage.imageLuma8 ⟨2, 1, [⟨0⟩, ⟨255⟩]⟩).height ∧
      out.variantIndex = (DynamicImage.imageLuma8 ⟨2, 1, [⟨0⟩, ⟨255⟩]⟩).variantIndex ∧
      out.channelCount = (DynamicImage.imageLuma8 ⟨2, 1, [⟨0⟩, ⟨255⟩]⟩).channelCount ∧
      out.sampleRange = (DynamicImage.imageLuma8 ⟨2, 1, [⟨0⟩, ⟨255⟩]⟩).sampleRange :=
  C6_theorem (.imageLuma8 ⟨2, 1, [⟨0⟩, ⟨255⟩]⟩) rfl (by decide) (1/2)
    (by norm_num) (by norm_num)

/-- C7: the grayscale reduction yields a single-channel buffer (channel
count 1 once wrapped back into a dynamic image, as `process_image` does)
with exactly the same width and height as the input, for every input
layout. -/
theorem C7_theorem (img : DynamicImage) :
    (DynamicImage.imageLuma8 (grayscale img)).channelCount = 1 ∧
      (DynamicImage.imageLuma8 (grayscale img)).width = img.width ∧
      (DynamicImage.imageLuma8 (grayscale img)).height = img.height :=
  ⟨rfl, grayscale_width img, grayscale_height img⟩

/-- C8: with grayscale off and alpha_percent at least 100, `process_image`
applies no transformation: the output is the decoded input buffer itself. -/
theorem C8_theorem (args : Args) (img : DynamicImage) (hg : args.to_gray = false)
    (ha : 100 ≤ args.alpha) : process_image args img = .ok img := by
  simp [process_image, hg, Nat.not_lt.mpr ha]

/-- C8 witness: the default configuration (alpha = 100, no grayscale) passes
a concrete 8-bit RGB buffer through unchanged. -/
theorem C8_witness :
    process_image ⟨[], false, 100⟩ (.imageRgb8 ⟨1, 1, [⟨1, 2, 3⟩]⟩) =
      .ok (.imageRgb8 ⟨1, 1, [⟨1, 2, 3⟩]⟩) :=
  C8_theorem ⟨[], false, 100⟩ (.imageRgb8 ⟨1, 1, [⟨1, 2, 3⟩]⟩) rfl (by norm_num)

/-- C9: the grayscale step produces 8-bit samples for every well-formed
input variant: every output luminance sample is at most 255, in particular
for 3x16-bit RGB inputs, whose samples are narrowed from 16 to 8 bits. -/
theorem C9_theorem (img : DynamicImage) (hwf : img.wellFormed) :
    ∀ px ∈ (grayscale img).data, px.y ≤ 255 :=
  grayscale_le img hwf

/-- C9 witness: grayscaling a concrete 1x1 16-bit RGB buffer with a maximal
sample yields the pixel 62, which lies within 8-bit range. -/
theorem C9_witness :
    Luma.mk 62 ∈ (grayscale (.imageRgb16 ⟨1, 1, [⟨65535, 0, 30000⟩]⟩)).data ∧
      (Luma.mk 62).y ≤ 255 :=
  ⟨by decide, C9_theorem (.imageRgb16 ⟨1, 1, [⟨65535, 0, 30000⟩]⟩) (by decide)
    (Luma.mk 62) (by decide)⟩

/-- C10: whenever grayscale is enabled, `process_image` never reaches the
unsupported-layout abort: for every well-formed decoded input (of any
layout) and any alpha percentage, it succeeds and its output is a 1x8-bit
luminance image, because the compositing dispatch only ever receives the
`Luma8` variant produced by the grayscale step. -/
theorem C10_theorem (args : Args) (img : DynamicImage) (hg : args.to_gray = true)
    (hwf : img.wellFormed) :
    ∃ b, process_image args img = .ok (.imageLuma8 b) := by
  by_cases ha : args.alpha < 100
  · have h0 : (0 : ℚ) ≤ (args.alpha : ℚ) / 100 := by positivity
    have h1 : (args.alpha : ℚ) / 100 ≤ 1 := by
      rw [div_le_one (by norm_num : (0 : ℚ) < 100)]
      exact_mod_cast le_of_lt ha
    obtain ⟨out, hout, _, _, _⟩ := mul_alpha_buffer_ok (grayscale img)
      fun px hpx => luma_mul_alpha_ok px h0 h1 (grayscale_le img hwf px hpx)
    refine ⟨out, ?_⟩
    simp only [process_image, hg, if_true, if_pos ha]
    rw [mul_alpha_to_image, hout, except_bind_ok, except_pure_eq_ok]
  · refine ⟨grayscale img, ?_⟩
    simp [process_image, hg, ha]

/-- C10 witness: grayscale followed by alpha = 50 succeeds on a concrete
16-bit RGBA buffer, a layout the compositor rejects on its own. -/
theorem C10_witness :
    ∃ b, process_image ⟨[], true, 50⟩ (.imageRgba16 ⟨1, 1, [⟨5, 6, 7, 8⟩]⟩) =
      .ok (.imageLuma8 b) :=
  C10_theorem ⟨[], true, 50⟩ (.imageRgba16 ⟨1, 1, [⟨5, 6, 7, 8⟩]⟩) rfl (by decide)
